import Mathlib

/-!
Verification of the parsr parsing toolkit (parsr.py) against its
natural-language specification.

The Python source is shallowly embedded as executable Lean definitions:

* Python exceptions become an error type `PErr`; fallible code returns
  `Except PErr _`.  The exception classes `LexerError`, `StatesExhausted`,
  `NotCompleted`, `AmbigiousResults` and `InfiniteStateExpansion` map to
  constructors of `PErr`; other Python exceptions (the `ValueError` raised
  for zero-length token matches, the `AttributeError` on the undefined
  attribute `self.lexerState`, `KeyError`/`AssertionError`/`ValueError`
  raised inside the engine) map to `zeroLengthToken`, `noLexerState` and
  `internal` respectively.
* A Python `re` match object is abstracted by the token's field
  `reMatch : String -> Nat -> Option (String × List (String × String))`
  returning the matched text (`group(0)`) and the named-group dictionary
  (`groupdict()`); per the semantics of `Pattern.match(text, pos)` the
  match is anchored, so `start = pos` and `end = pos + len(group(0))`.
* The mutable object graph of parser states is a store (`Store`), a list
  of state records indexed by allocation order; Python object identity
  becomes the index.  Python dictionaries (`results`, `currentPositions`,
  the lexer's `pushOn` map) are modelled as insertion-ordered association
  lists, which also fixes an iteration order for `viewvalues()`.
* The mutually recursive method calls of the engine (construction,
  `makeValid`/`setValidPossibility`, `pushToken`, the `possibilities()`
  generator with its deferred add/remove queues) are executed by a single
  fuel-indexed interpreter `exec` over an operation type `Op`; running out
  of fuel models hitting Python's recursion limit (a `RuntimeError` that
  `grammar.parse` converts to `InfiniteStateExpansion`).
-/

/-- Python runtime values that flow through the engine: strings (raw
matches), named-group dictionaries, integers and lists. -/
inductive Value where
  | str (s : String)
  | strMap (l : List (String × String))
  | int (n : Int)
  | list (l : List Value)

/-- The `context` dictionary passed to `parse` and forwarded to mergers. -/
abbrev Ctx := List (String × Value)

/-- A user-supplied merger (reducer); called with the node's value and the
keyword context. -/
abbrev Merger := Value → Ctx → Value

/-- Embedding of class `token`: the compiled regexp is abstracted by
`reMatch` (see the header comment); `tid` models object identity (tokens
are equal by identity in Python); `merger` is the symbol's merger. -/
structure Token where
  tid : Nat
  reMatch : String → Nat → Option (String × List (String × String))
  merger : Option Merger := none

/-- Embedding of `token.matchType`: fields `token` (as `tokTid`), `text`
(= `group(0)`), `result`, `start` and `end` (as `endPos`). -/
structure MatchRec where
  tokTid : Nat
  text : String
  result : Value
  start : Nat
  endPos : Nat

/-- The symbol graph after name resolution: `token`, `chain`, `repeat`
(constructor `rep`, with fields `From`/`To`) and `oneOf`. -/
inductive symbol where
  | tok (t : Token)
  | chain (syms : List symbol) (merger : Option Merger)
  | rep (inner : symbol) (From To : Int) (merger : Option Merger)
  | oneOf (syms : List symbol) (merger : Option Merger)

/-- Errors: the documented exception classes plus the other Python errors
that the source can raise (see header comment).  `fuelOut` models hitting
the interpreter's recursion limit (`RuntimeError: maximum recursion depth
exceeded`). -/
inductive PErr where
  | lexerError (pos : Nat) (modeName : String)
  | zeroLengthToken
  | noLexerState
  | statesExhausted (stateId : Nat) (expected : Option (List Nat))
  | notCompleted (stateId : Nat)
  | ambiguous (stateId : Nat)
  | infiniteStateExpansion
  | internal (msg : String)
  | fuelOut
deriving DecidableEq

/-- Embedding of class `lexerState` (a lexer mode).  `popOn` stores the
identity (`tid`) of the pop token; `pushOn` is already normalized to a
list as `grammar.initLexerStates` does. -/
structure Mode where
  name : String := "lexerState"
  tokens : List Token
  omits : List Token := []
  pushOn : List Token := []
  popOn : Option Nat := none

/-- A grammar after construction: lexer modes, start mode and resolved
start symbol. -/
structure Grammar where
  lexerStates : List Mode
  lexerStartState : Mode
  startSymbol : symbol

/-- Embedding of `token.match(text, pos)`: fails (Python `ValueError`) on a
zero-length match; the carried `result` is `groupdict()` if non-empty,
else `group(0)`. -/
def tokenMatch (t : Token) (text : String) (pos : Nat) :
    Except PErr (Option MatchRec) :=
  match t.reMatch text pos with
  | none => .ok none
  | some (g0, gd) =>
    if g0.length = 0 then .error .zeroLengthToken
    else .ok (some { tokTid := t.tid, text := g0,
                     result := if gd.length = 0 then .str g0 else .strMap gd,
                     start := pos, endPos := pos + g0.length })

/-- The lexer's inner loops over `states[-1].omit` / `states[-1].tokens`:
try each token in declared order, stop at the first match. -/
def matchFirst (toks : List Token) (text : String) (pos : Nat) :
    Except PErr (Option (Token × MatchRec)) :=
  match toks with
  | [] => .ok none
  | t :: rest => do
    let r ← tokenMatch t text pos
    match r with
    | some mr => .ok (some (t, mr))
    | none => matchFirst rest text pos

/-- Association-list lookup for the lexer's `pushOn` dictionary. -/
def plookup (m : List (Nat × Mode)) (k : Nat) : Option Mode :=
  match m with
  | [] => none
  | (k', v) :: rest => if k' = k then some v else plookup rest k

/-- Association-list insert-or-overwrite (Python dict assignment). -/
def pinsert (m : List (Nat × Mode)) (k : Nat) (v : Mode) :
    List (Nat × Mode) :=
  match m with
  | [] => [(k, v)]
  | (k', v') :: rest =>
    if k' = k then (k, v) :: rest else (k', v') :: pinsert rest k v

/-- Construction of the `pushOn` dictionary in `grammar.lex`: for each
lexer state with a `pushOn` list, map each trigger token to that state. -/
def buildPushOn (modes : List Mode) : List (Nat × Mode) :=
  modes.foldl (fun acc md => md.pushOn.foldl (fun a p => pinsert a p.tid md) acc) []

/-- Mode transitions applied after token `t` matched (`grammar.lex` lines
around the omit and token branches): first, if the top mode's `popOn` is
`t`, pop the stack (unconditionally); then, if `t` is in the `pushOn`
dictionary, push the mapped mode.  The stack is represented with its top
as the head of the list (Python indexes the top as `states[-1]`). -/
def applyModeTransitions (t : Token) (states : List Mode)
    (pushOnMap : List (Nat × Mode)) : List Mode :=
  let s1 :=
    match states with
    | top :: rest => if top.popOn = some t.tid then rest else states
    | [] => states
  match plookup pushOnMap t.tid with
  | some md => md :: s1
  | none => s1

/-- The main lexer loop of `grammar.lex`, fuel-indexed.  One iteration:
if the text is exhausted, return the accumulated token stream; if the mode
stack is empty, Python evaluates the undefined attribute `self.lexerState`
and dies with `AttributeError` (modelled by `noLexerState`); otherwise try
the top mode's omit tokens (matches advance without emitting), then its
accept tokens (matches are emitted), else raise `LexerError`. -/
def lexAux (pushOnMap : List (Nat × Mode)) (text : String) :
    Nat → Nat → List Mode → List MatchRec → Except PErr (List MatchRec)
  | 0, _, _, _ => .error .fuelOut
  | fuel + 1, pos, states, acc =>
    if pos < text.length then
      match states with
      | [] => .error .noLexerState
      | top :: _ => do
        let omr ← matchFirst top.omits text pos
        match omr with
        | some (t, mr) =>
          lexAux pushOnMap text fuel mr.endPos
            (applyModeTransitions t states pushOnMap) acc
        | none => do
          let tmr ← matchFirst top.tokens text pos
          match tmr with
          | some (t, mr) =>
            lexAux pushOnMap text fuel mr.endPos
              (applyModeTransitions t states pushOnMap) (acc ++ [mr])
          | none => .error (.lexerError pos top.name)
    else .ok acc

/-- Embedding of `grammar.lex`: start with stack `[lexerStartState]` at
position 0.  The fuel `text.length + 1` suffices because the position
strictly increases each iteration (see the termination theorem). -/
def lex (g : Grammar) (text : String) : Except PErr (List MatchRec) :=
  lexAux (buildPushOn g.lexerStates) text (text.length + 1) 0
    [g.lexerStartState] []

/-- Behavioural kinds of parser states: the root state, token states, and
the three `chain.stateType`-derived kinds (`chain`, `repeat`, `oneOf`). -/
inductive SKind where
  | root
  | tk
  | ch
  | rp
  | oo
deriving DecidableEq

/-- The kind of the state a symbol's `getState` produces. -/
def kindOf : symbol → SKind
  | .tok _ => .tk
  | .chain _ _ => .ch
  | .rep _ _ _ _ => .rp
  | .oneOf _ _ => .oo

/-- The `symbols` attribute of a combinator symbol (`repeat` stores the
singleton `[inner]`). -/
def symSubs : symbol → List symbol
  | .tok _ => []
  | .chain syms _ => syms
  | .rep inner _ _ _ => [inner]
  | .oneOf syms _ => syms

/-- The symbol's merger. -/
def symMerger : symbol → Option Merger
  | .tok t => t.merger
  | .chain _ m => m
  | .rep _ _ _ m => m
  | .oneOf _ m => m

/-- The `From` bound of a repetition symbol (0 otherwise; only read on `rep`). -/
def repFrom : symbol → Int
  | .rep _ f _ _ => f
  | _ => 0

/-- The `To` bound of a repetition symbol (0 otherwise; only read on `rep`). -/
def repTo : symbol → Int
  | .rep _ _ t _ => t
  | _ => 0

/-- Identity of the token of a terminal symbol (only read on `tok`). -/
def tokTidOf : symbol → Nat
  | .tok t => t.tid
  | _ => 0

/-- One parser-state object.  `poss`, `added`, `removed` and `yielding`
embed `_possibilities`, `_addedPossibilities`, `_removedPossibilities` and
`_yieldsPossibilities`; `results`, `curPos` and `worksOn` are the
`chain.stateType` dictionaries `results` / `currentPositions` (keys are
state identities, with `none` for the Python key `None`) and
`currentlyWorksOn`; `tokResult` is `token.stateType._result`; `validPoss`
and `lastTokens` are the root state's `validPossibilities` and
`lastTokens`. -/
structure StDat where
  kind : SKind
  sym : symbol
  parent : Option Nat
  poss : List Nat := []
  added : List Nat := []
  removed : List Nat := []
  yielding : Bool := false
  results : List (Option Nat × List Nat) := []
  curPos : List (Option Nat × Nat) := []
  worksOn : Option Nat := none
  tokResult : Option MatchRec := none
  validPoss : List Nat := []
  lastTokens : List Nat := []

/-- The heap of parser states; a state's identity is its index. -/
abbrev Store := List StDat

/-- Look a state up, failing like a broken Python attribute access would. -/
def withSt (st : Store) (i : Nat) (k : StDat → Except PErr α) :
    Except PErr α :=
  match st[i]? with
  | none => .error (.internal "missing state")
  | some d => k d

/-- Association-list lookup for `results` / `currentPositions`. -/
def alookup (m : List (Option Nat × α)) (k : Option Nat) : Option α :=
  match m with
  | [] => none
  | (k', v) :: rest => if k' = k then some v else alookup rest k

/-- Association-list insert-or-overwrite (Python dict assignment keeps the
position of an existing key and appends new keys). -/
def aset (m : List (Option Nat × α)) (k : Option Nat) (v : α) :
    List (Option Nat × α) :=
  match m with
  | [] => [(k, v)]
  | (k', v') :: rest =>
    if k' = k then (k, v) :: rest else (k', v') :: aset rest k v

/-- Association-list delete-if-present (the guarded `del` in
`chain.stateType.removePossibility`). -/
def aremove (m : List (Option Nat × α)) (k : Option Nat) :
    List (Option Nat × α) :=
  match m with
  | [] => []
  | (k', v') :: rest =>
    if k' = k then aremove rest k else (k', v') :: aremove rest k

/-- The values of the dictionary (`viewvalues()`) in insertion order. -/
def avalues (m : List (Option Nat × α)) : List α := m.map Prod.snd

/-- Whether a state dispatches through `chain.stateType` (chain, repeat
and oneOf states share it). -/
def isChainKind : SKind → Bool
  | .ch => true
  | .rp => true
  | .oo => true
  | _ => false

/-- Embedding of `parserState.addPossibility`: defer to
`_addedPossibilities` while the possibilities generator is running. -/
def addPossGeneric (st : Store) (selfId p : Nat) : Except PErr Store :=
  withSt st selfId fun d =>
    if d.yielding then .ok (st.set selfId { d with added := d.added ++ [p] })
    else .ok (st.set selfId { d with poss := d.poss ++ [p] })

/-- Embedding of `parserState.addPossibilityNow`: append to the live list
(a running iteration will still reach the new element). -/
def addPossNowGeneric (st : Store) (selfId p : Nat) : Except PErr Store :=
  withSt st selfId fun d =>
    .ok (st.set selfId { d with poss := d.poss ++ [p] })

/-- Embedding of `chain.stateType.copyResAndCurPosFor`: fresh empty
bookkeeping when no branch is being worked on, otherwise a copy of the
worked-on branch's `results` / `currentPositions` entries. -/
def copyResAndCurPosFor (st : Store) (selfId p : Nat) : Except PErr Store :=
  withSt st selfId fun d =>
    match d.worksOn with
    | none =>
      .ok (st.set selfId
        { d with results := aset d.results (some p) [],
                 curPos := aset d.curPos (some p) 0 })
    | some w =>
      match alookup d.results (some w), alookup d.curPos (some w) with
      | some rs, some cp =>
        .ok (st.set selfId
          { d with results := aset d.results (some p) rs,
                   curPos := aset d.curPos (some p) cp })
      | _, _ => .error (.internal "KeyError currentlyWorksOn")

/-- Dispatching `addPossibility`: `chain.stateType.addPossibility` also
creates the bookkeeping entries. -/
def addPossibility (st : Store) (selfId p : Nat) : Except PErr Store :=
  withSt st selfId fun d =>
    if isChainKind d.kind then do
      let st1 ← addPossGeneric st selfId p
      copyResAndCurPosFor st1 selfId p
    else addPossGeneric st selfId p

/-- Dispatching `addPossibilityNow`, analogously. -/
def addPossibilityNow (st : Store) (selfId p : Nat) : Except PErr Store :=
  withSt st selfId fun d =>
    if isChainKind d.kind then do
      let st1 ← addPossNowGeneric st selfId p
      copyResAndCurPosFor st1 selfId p
    else addPossNowGeneric st selfId p

/-- Embedding of `parserState.removePossibility`: `ValueError` when the
state is in neither queue; defer to `_removedPossibilities` while the
generator is running, else remove the first occurrence. -/
def removePossGeneric (st : Store) (selfId p : Nat) : Except PErr Store :=
  withSt st selfId fun d =>
    if p ∈ d.poss ∨ p ∈ d.added then
      if d.yielding then
        .ok (st.set selfId { d with removed := d.removed ++ [p] })
      else .ok (st.set selfId { d with poss := d.poss.erase p })
    else .error (.internal "State is no substate of me")

/-- Dispatching `removePossibility`: `chain.stateType.removePossibility`
also deletes the bookkeeping entries when present. -/
def removePossibility (st : Store) (selfId p : Nat) : Except PErr Store :=
  withSt st selfId fun d =>
    if isChainKind d.kind then do
      let st1 ← removePossGeneric st selfId p
      withSt st1 selfId fun d1 =>
        .ok (st1.set selfId
          { d1 with results := aremove d1.results (some p),
                    curPos := aremove d1.curPos (some p) })
    else removePossGeneric st selfId p

/-- Embedding of `chain.stateType.fork`: allocate a twin carrying only the
validated branch's bookkeeping (the twin's own constructor runs with
`withInitialPossibility = False`, and for a repetition the eager-empty
guard cannot fire on its empty `results`), remove the branch from this
state, and hand the twin to the parent as a new possibility. -/
def fork (st : Store) (selfId validId : Nat) : Except PErr (Store × Nat) :=
  withSt st selfId fun d =>
    match d.parent with
    | none => .error (.internal "No parent to fork")
    | some par =>
      match alookup d.results (some validId), alookup d.curPos (some validId) with
      | some rs, some cp =>
        let cid := st.length
        let st1 := st ++ [{ kind := d.kind, sym := d.sym, parent := some par,
                            results := [(some validId, rs)],
                            curPos := [(some validId, cp)] }]
        do
          let st2 ← removePossibility st1 selfId validId
          let st3 ← addPossibility st2 par cid
          .ok (st3, cid)
      | _, _ => .error (.internal "KeyError fork")

/-- The operations of the engine interpreter: state construction
(`getState` / the `__init__` chain), validity propagation (`makeValid`,
`setValidPossibility`, `makeInvalid`, `setInvalidPossibility`,
`createNextState`, `_addEmptyResultToParentEventually`), token pushing
with the `possibilities()` generator protocol, and `leafs()`. -/
inductive Op where
  | build (parentId : Nat) (s : symbol)
  | buildList (selfId : Nat) (syms : List symbol)
  | addEmpty (id : Nat)
  | mkValid (id : Nat)
  | mkInvalid (id : Nat)
  | setValid (pid cid : Nat)
  | setInvalid (pid cid : Nat)
  | createNext (selfId validId : Nat)
  | pushTok (id : Nat) (m : MatchRec)
  | pushIter (id : Nat) (i : Nat) (m : MatchRec)
  | possFlush (id : Nat)
  | leafs (id : Nat)
  | leafsIter (id : Nat) (i : Nat)

/-- The fuel-indexed interpreter executing the mutually recursive engine
methods; returns the new store plus, for `build` the fresh state's
identity and for `leafs` the collected leaf identities.  Running out of
fuel models exceeding Python's recursion limit. -/
def exec : Nat → Op → Store → Except PErr (Store × List Nat)
  | 0, _, _ => .error .fuelOut
  | fuel + 1, op, st =>
    match op with
    | .build parentId s =>
      match s with
      | .tok _ =>
        .ok (st ++ [{ kind := .tk, sym := s, parent := some parentId }],
             [st.length])
      | .chain syms _ =>
        let id := st.length
        let st1 := st ++ [{ kind := .ch, sym := s, parent := some parentId }]
        match syms.head? with
        | none => .error (.internal "chain without symbols")
        | some s0 => do
          let (st2, ids) ← exec fuel (.build id s0) st1
          let st3 ← addPossibility st2 id (ids.headD 0)
          .ok (st3, [id])
      | .rep inner _ _ _ =>
        let id := st.length
        let st1 := st ++ [{ kind := .rp, sym := s, parent := some parentId }]
        do
          let (st2, ids) ← exec fuel (.build id inner) st1
          let st3 ← addPossibility st2 id (ids.headD 0)
          let (st4, _) ← exec fuel (.addEmpty id) st3
          .ok (st4, [id])
      | .oneOf syms _ =>
        let id := st.length
        let st1 := st ++ [{ kind := .oo, sym := s, parent := some parentId }]
        do
          let (st2, _) ← exec fuel (.buildList id syms) st1
          .ok (st2, [id])
    | .buildList selfId syms =>
      match syms with
      | [] => .ok (st, [])
      | s :: rest => do
        let (st1, ids) ← exec fuel (.build selfId s) st
        let st2 ← addPossibility st1 selfId (ids.headD 0)
        exec fuel (.buildList selfId rest) st2
    | .addEmpty id =>
      withSt st id fun d =>
        match d.results with
        | [(_, [])] =>
          if repFrom d.sym = 0 then
            match d.parent with
            | none => .error (.internal "no parent for empty result")
            | some par =>
              let eid := st.length
              let st1 := st ++ [{ kind := d.kind, sym := d.sym,
                                  parent := some par, results := [(none, [])] }]
              do
                let st2 ← addPossibility st1 par eid
                exec fuel (.mkValid eid) st2
          else .ok (st, [])
        | _ => .ok (st, [])
    | .mkValid id =>
      withSt st id fun d =>
        match d.parent with
        | none => .ok (st, [])
        | some p => exec fuel (.setValid p id) st
    | .mkInvalid id =>
      withSt st id fun d =>
        match d.parent with
        | none => .error (.statesExhausted id none)
        | some p => exec fuel (.setInvalid p id) st
    | .setValid pid cid =>
      withSt st pid fun d =>
        match d.kind with
        | .root => do
          let st1 := st.set pid { d with validPoss := d.validPoss ++ [cid] }
          let st2 ← removePossibility st1 pid cid
          .ok (st2, [])
        | .ch =>
          match alookup d.results (some cid), alookup d.curPos (some cid) with
          | some rs, some cp =>
            let st1 := st.set pid
              { d with results := aset d.results (some cid) (rs ++ [cid]),
                       curPos := aset d.curPos (some cid) (cp + 1) }
            if (symSubs d.sym).length = cp + 1 then do
              let (st2, fid) ← fork st1 pid cid
              exec fuel (.mkValid fid) st2
            else do
              let (st2, _) ← exec fuel (.createNext pid cid) st1
              let st3 ← removePossibility st2 pid cid
              .ok (st3, [])
          | _, _ => .error (.internal "assert state in results")
        | .rp =>
          match alookup d.results (some cid) with
          | none => .error (.internal "KeyError results")
          | some rs =>
            let cnt := rs.length + 1
            let st1 := st.set pid
              { d with results := aset d.results (some cid) (rs ++ [cid]) }
            do
              let st2 ←
                (if (cnt : Int) < repTo d.sym ∨ repTo d.sym = -1 then do
                  let (s2, _) ← exec fuel (.createNext pid cid) st1
                  pure s2
                else pure st1)
              if (cnt : Int) ≥ repFrom d.sym then do
                let (st3, fid) ← fork st2 pid cid
                exec fuel (.mkValid fid) st3
              else do
                let st3 ← removePossibility st2 pid cid
                .ok (st3, [])
        | .oo =>
          match alookup d.results (some cid) with
          | none => .error (.internal "KeyError results")
          | some rs =>
            let st1 := st.set pid
              { d with results := aset d.results (some cid) (rs ++ [cid]) }
            do
              let (st2, fid) ← fork st1 pid cid
              let (st3, _) ← exec fuel (.mkValid fid) st2
              let st4 ← removePossibility st3 pid cid
              .ok (st4, [])
        | .tk => .error (.internal "token has no substates")
    | .setInvalid pid cid => do
      let st1 ← removePossibility st pid cid
      withSt st1 pid fun d1 =>
        if d1.poss = [] then exec fuel (.mkInvalid pid) st1
        else .ok (st1, [])
    | .createNext selfId validId =>
      withSt st selfId fun d =>
        let curWorks := d.worksOn
        let st1 := st.set selfId { d with worksOn := some validId }
        match alookup d.curPos (some validId) with
        | none => .error (.internal "KeyError currentPositions")
        | some idx =>
          match (symSubs d.sym)[idx]? with
          | none => .error (.internal "IndexError symbols")
          | some ns => do
            let (st2, ids) ← exec fuel (.build selfId ns) st1
            let nid := ids.headD 0
            let st3 ←
              withSt st2 selfId fun d2 =>
                if validId ∈ d2.poss then
                  match curWorks with
                  | none => addPossibility st2 selfId nid
                  | some cw =>
                    match d2.poss.findIdx? (· = validId),
                          d2.poss.findIdx? (· = cw) with
                    | some iv, some ic =>
                      if iv ≤ ic then addPossibility st2 selfId nid
                      else addPossibilityNow st2 selfId nid
                    | _, _ => .error (.internal "ValueError index")
                else addPossibility st2 selfId nid
            withSt st3 selfId fun d3 =>
              .ok (st3.set selfId { d3 with worksOn := curWorks }, [])
    | .pushTok id m =>
      withSt st id fun d =>
        match d.kind with
        | .tk =>
          if m.tokTid = tokTidOf d.sym then
            exec fuel (.mkValid id) (st.set id { d with tokResult := some m })
          else exec fuel (.mkInvalid id) st
        | .root =>
          let st0 := st.set id { d with validPoss := [] }
          if d.poss = [] then
            .error (.statesExhausted id (some d.lastTokens))
          else
            let st1 := st0.set id { d with validPoss := [], lastTokens := [] }
            do
              let (st2, ls) ← exec fuel (.leafs id) st1
              withSt st2 id fun d2 =>
                let st3 := st2.set id
                  { d2 with lastTokens := d2.lastTokens ++ ls, yielding := true }
                exec fuel (.pushIter id 0 m) st3
        | .ch | .rp | .oo =>
          match d.worksOn with
          | some _ => .error (.internal "assert currentlyWorksOn is None")
          | none =>
            exec fuel (.pushIter id 0 m) (st.set id { d with yielding := true })
    | .pushIter id i m =>
      withSt st id fun d =>
        match d.poss[i]? with
        | some p =>
          if p ∈ d.removed then exec fuel (.pushIter id (i + 1) m) st
          else
            match d.kind with
            | .root => do
              let (st1, _) ← exec fuel (.pushTok p m) st
              exec fuel (.pushIter id (i + 1) m) st1
            | .ch | .rp | .oo =>
              if (alookup d.curPos (some p)).isSome then
                if (alookup d.results (some p)).isSome then do
                  let st1 := st.set id { d with worksOn := some p }
                  let (st2, _) ← exec fuel (.pushTok p m) st1
                  exec fuel (.pushIter id (i + 1) m) st2
                else .error (.internal "assert p in results")
              else .error (.internal "assert p in currentPositions")
            | .tk => .error (.internal "token iterates no possibilities")
        | none => do
          let (st1, _) ← exec fuel (.possFlush id) st
          if isChainKind d.kind then
            withSt st1 id fun d1 =>
              .ok (st1.set id { d1 with worksOn := none }, [])
          else .ok (st1, [])
    | .possFlush id =>
      withSt st id fun d =>
        let poss1 := d.poss ++ d.added
        let poss2 := d.removed.foldl (fun l r => l.erase r) poss1
        let st1 := st.set id
          { d with poss := poss2, added := [], removed := [], yielding := false }
        match d.kind with
        | .root =>
          if poss2 = [] ∧ d.validPoss = [] then exec fuel (.mkInvalid id) st1
          else .ok (st1, [])
        | _ =>
          if poss2 = [] then exec fuel (.mkInvalid id) st1
          else .ok (st1, [])
    | .leafs id =>
      withSt st id fun d =>
        match d.kind with
        | .tk => .ok (st, [id])
        | _ => exec fuel (.leafsIter id 0) (st.set id { d with yielding := true })
    | .leafsIter id i =>
      withSt st id fun d =>
        match d.poss[i]? with
        | some p =>
          if p ∈ d.removed then exec fuel (.leafsIter id (i + 1)) st
          else do
            let (st1, ls) ← exec fuel (.leafs p) st
            let (st2, ls2) ← exec fuel (.leafsIter id (i + 1)) st1
            .ok (st2, ls ++ ls2)
        | none => do
          let (st1, _) ← exec fuel (.possFlush id) st
          .ok (st1, [])

/-- Apply a merger if the symbol has one (`if self.symbol.merger: ...`). -/
def applyMerger (m : Option Merger) (v : Value) (ctx : Ctx) : Value :=
  match m with
  | some f => f v ctx
  | none => v

/-- The completed-branch filter of `chain.stateType.result`: keep the
branches whose length equals the number of the chain's symbols. -/
def completedResults (n : Nat) : List (List Nat) → List (List Nat)
  | [] => []
  | r :: rest =>
    if r.length = n then r :: completedResults n rest
    else completedResults n rest

/-- The admissibility filter of `repeat.stateType.result`:
`len(res) >= From and (len(res) <= To or To == -1)`. -/
def admissibleResults (f t : Int) : List (List Nat) → List (List Nat)
  | [] => []
  | r :: rest =>
    if f ≤ (r.length : Int) ∧ ((r.length : Int) ≤ t ∨ t = -1) then
      r :: admissibleResults f t rest
    else admissibleResults f t rest

/-- The longest-result scan of `repeat.stateType.result`:
`res = posResults[0]; for r in posResults: if len(r) > len(res): res = r`. -/
def pickLongest (first : List Nat) (l : List (List Nat)) : List Nat :=
  l.foldl (fun res r => if res.length < r.length then r else res) first

/-- The collection loop of `oneOf.stateType.result`: assert each branch
holds at most one result, keep the completed ones. -/
def oneOfCollect : List (List Nat) → Except PErr (List (List Nat))
  | [] => .ok []
  | r :: rest =>
    if r.length ≤ 1 then do
      let c ← oneOfCollect rest
      .ok (if r.length = 1 then r :: c else c)
    else .error (.internal "assert len at most 1")

/-- Post-parse evaluation (`result(context)` of the four state kinds),
fuel-indexed: a token state applies its merger to the match's value; a
chain state demands a unique completed branch; a repetition state picks
the longest admissible branch; a oneOf state demands a unique completed
branch and returns its single child's value unwrapped. -/
def evalRes : Nat → Store → Nat → Ctx → Except PErr Value
  | 0, _, _, _ => .error .fuelOut
  | fuel + 1, st, id, ctx =>
    match st[id]? with
    | none => .error (.internal "missing state")
    | some d =>
      match d.kind with
      | .root => .error (.internal "root result is rootResult")
      | .tk =>
        match d.tokResult with
        | none => .error (.internal "assert result is not None")
        | some mr => .ok (applyMerger (symMerger d.sym) mr.result ctx)
      | .ch =>
        match completedResults (symSubs d.sym).length (avalues d.results) with
        | [] => .error (.notCompleted id)
        | [r] => do
          let l ← r.mapM (fun i => evalRes fuel st i ctx)
          .ok (applyMerger (symMerger d.sym) (.list l) ctx)
        | _ => .error (.ambiguous id)
      | .rp =>
        match admissibleResults (repFrom d.sym) (repTo d.sym) (avalues d.results) with
        | [] => .error (.notCompleted id)
        | r :: rest => do
          let l ← (pickLongest r (r :: rest)).mapM (fun i => evalRes fuel st i ctx)
          .ok (applyMerger (symMerger d.sym) (.list l) ctx)
      | .oo => do
        let posResults ← oneOfCollect (avalues d.results)
        match posResults with
        | [] => .error (.notCompleted id)
        | [r] => do
          let v ← evalRes fuel st (r.headD 0) ctx
          .ok (applyMerger (symMerger d.sym) v ctx)
        | _ => .error (.ambiguous id)

/-- Embedding of `parserRootState.result(context)`: `NotCompleted` if no
valid completion survived the last token, `Ambigious` if more than one
did, else evaluate the unique one. -/
def rootResult (fuel : Nat) (st : Store) (ctx : Ctx) : Except PErr Value :=
  match st[0]? with
  | none => .error (.internal "missing root")
  | some d =>
    if d.validPoss.length = 0 then .error (.notCompleted 0)
    else if 1 < d.validPoss.length then .error (.ambiguous 0)
    else evalRes fuel st (d.validPoss.headD 0) ctx

/-- Embedding of `parserRootState.__init__`: allocate the root (identity
0) and add one possibility for the start symbol's state. -/
def buildRoot (fuel : Nat) (s : symbol) : Except PErr Store := do
  let st0 : Store := [{ kind := .root, sym := s, parent := none }]
  let (st1, ids) ← exec fuel (.build 0 s) st0
  addPossibility st1 0 (ids.headD 0)

/-- The token loop of `grammar.parse`: push every match record into the
root state. -/
def runTokens (fuel : Nat) : List MatchRec → Store → Except PErr Store
  | [], st => .ok st
  | m :: rest, st => do
    let (st1, _) ← exec fuel (.pushTok 0 m) st
    runTokens fuel rest st1

/-- The guarded region of `grammar.parse` (root construction plus the
token loop; Python wraps it in the `try` that converts the
recursion-limit `RuntimeError` into `InfiniteStateExpansion`). -/
def parseCore (fuel : Nat) (g : Grammar) (toks : List MatchRec) :
    Except PErr Store := do
  let st ← buildRoot fuel g.startSymbol
  runTokens fuel toks st

/-- The fixed interpreter fuel, standing in for Python's recursion
limit. -/
def engineFuel : Nat := 1000

/-- Embedding of `grammar.parse(text, context)`: lex (outside the `try`,
so lexer-side errors escape unconverted), then build the root state and
push every token (a fuel exhaustion here is the recursion-limit
`RuntimeError`, converted to `InfiniteStateExpansion`; every other error
is re-raised), then harvest the result (again outside the `try`). -/
def parse (g : Grammar) (text : String) (ctx : Ctx) : Except PErr Value :=
  match lex g text with
  | .error e => .error e
  | .ok toks =>
    match parseCore engineFuel g toks with
    | .error .fuelOut => .error .infiniteStateExpansion
    | .error e => .error e
    | .ok st => rootResult engineFuel st ctx

/-- A fixture token whose abstract regexp matches the literal `s` (with no
named groups) at every position, like `re.compile("a")` on a text of `a`s. -/
def litTok (tid : Nat) (s : String) : Token :=
  { tid := tid, reMatch := fun _ _ => some (s, []) }

/-- A fixture token with named capture groups `gd`. -/
def litTokG (tid : Nat) (s : String) (gd : List (String × String)) : Token :=
  { tid := tid, reMatch := fun _ _ => some (s, gd) }

/-- A fixture token whose regexp matches the empty string (like `"a*"` at a
position holding no `a`). -/
def zeroTok : Token := { tid := 9, reMatch := fun _ _ => some ("", []) }

/-- A grammar with a single lexer mode, as `grammar.fromSymbol` builds. -/
def oneModeGrammar (toks : List Token) (s : symbol) : Grammar :=
  { lexerStates := [{ tokens := toks }], lexerStartState := { tokens := toks },
    startSymbol := s }

/-- Whether a parse outcome is one of the six documented ones: success or
one of `LexerError`, `StatesExhausted`, `NotCompleted`, `Ambiguous`,
`InfiniteStateExpansion`. -/
def specifiedOutcome (r : Except PErr Value) : Bool :=
  match r with
  | .ok _ => true
  | .error (.lexerError _ _) => true
  | .error (.statesExhausted _ _) => true
  | .error (.notCompleted _) => true
  | .error (.ambiguous _) => true
  | .error .infiniteStateExpansion => true
  | .error _ => false

/-- Whether a parse outcome is an undocumented internal Python error: the
zero-length-token `ValueError`, the `AttributeError` on the missing
`lexerState` attribute, an assertion/`KeyError`-style failure, or an
unconverted recursion-limit `RuntimeError`. -/
def internalOutcome (r : Except PErr Value) : Bool :=
  match r with
  | .error .zeroLengthToken => true
  | .error .noLexerState => true
  | .error (.internal _) => true
  | .error .fuelOut => true
  | _ => false

/-- The single-mode grammar over the zero-length-matching token; its parse
raises the `ValueError` from `token.match` (tested by `tokenTests.oneChar`). -/
def zeroGram : Grammar := oneModeGrammar [zeroTok] (.tok zeroTok)

/-- A lexer mode whose own `popOn` is its own token: matching `a` pops the
mode even though it is the base mode. -/
def popMode : Mode := { tokens := [litTok 5 "a"], popOn := some 5 }

/-- A grammar whose base (start) lexer mode pops itself on its only token. -/
def popGram : Grammar :=
  { lexerStates := [popMode], lexerStartState := popMode,
    startSymbol := .rep (.tok (litTok 5 "a")) 0 (-1) none }

/-- The start symbol `repeat(optional(a), from = 0, to = 1)`: a repetition
of a nullable symbol. -/
def nestedOptSym : symbol :=
  .rep (.rep (.tok (litTok 1 "a")) 0 1 none) 0 1 none

/-- Grammar with start symbol `repeat(optional(a), 0, 1)`. -/
def nestedOptGram : Grammar := oneModeGrammar [litTok 1 "a"] nestedOptSym

/-- Invariant of `chain.stateType` bookkeeping: every alternative that is
live (in `_possibilities` or `_addedPossibilities`) and not pending
removal has entries in both `results` and `currentPositions`. -/
def chainInv (d : StDat) : Prop :=
  ∀ p, p ∈ d.poss ++ d.added → p ∉ d.removed →
    (alookup d.results (some p)).isSome ∧ (alookup d.curPos (some p)).isSome

/-- A sequence state mid-iteration, for exercising
`chain.stateType.createNextState`: the root owns state 1, a chain state
over one terminal with live list `ps`, currently-iterated alternative `w`,
and a validated child 2 whose branch has accumulated results `[9]`. -/
def c4store (ps : List Nat) (w : Option Nat) : Store :=
  [ { kind := .root, sym := .tok (litTok 1 "a"), parent := none, poss := [1] },
    { kind := .ch, sym := .chain [.tok (litTok 1 "a")] none, parent := some 0,
      poss := ps, yielding := true, worksOn := w,
      results := [(some 2, [9])], curPos := [(some 2, 0)] },
    { kind := .tk, sym := .tok (litTok 1 "a"), parent := some 1 } ]

/-- A repetition state mid-iteration, for exercising
`repeat.stateType.setValidPossibility`: the root owns state 1, a
repetition of a terminal with bounds `f`/`t`, whose child 2 (the validated
one) has previously completed children `prior`. -/
def c6store (tk : Token) (f t : Int) (mg : Option Merger) (prior : List Nat) :
    Store :=
  [ { kind := .root, sym := .rep (.tok tk) f t mg, parent := none, poss := [1] },
    { kind := .rp, sym := .rep (.tok tk) f t mg, parent := some 0,
      poss := [2], yielding := true, worksOn := some 2,
      results := [(some 2, prior)], curPos := [(some 2, 0)] },
    { kind := .tk, sym := .tok tk, parent := some 1 } ]

/-- A freshly constructed repetition state (inner child 2 just added, no
completed children), directly before `_addEmptyResultToParentEventually`
runs: the situation of `repeat.stateType.__init__`. -/
def c6storeE (tk : Token) (f t : Int) (mg : Option Merger) : Store :=
  [ { kind := .root, sym := .rep (.tok tk) f t mg, parent := none },
    { kind := .rp, sym := .rep (.tok tk) f t mg, parent := some 0,
      poss := [2], results := [(some 2, [])], curPos := [(some 2, 0)] },
    { kind := .tk, sym := .tok tk, parent := some 1 } ]

/-- A fixture token with a named capture group `x`, like the regexp
`(?P<x>a)` used by the source's own token tests. -/
def c3tok : Token := litTokG 3 "a" [("x", "a")]

/-- A concrete match record (token 1 matched `a` at position 0). -/
def mr0 : MatchRec := ⟨1, "a", .str "a", 0, 1⟩

/-- A root state with no live alternatives left and a recorded
last-expected leaf, for exercising `parserRootState.pushToken`. -/
def c1store : Store :=
  [ { kind := .root, sym := .tok (litTok 1 "a"), parent := none,
      poss := [], lastTokens := [7], validPoss := [4] } ]

/-- A repetition state whose single branch has no completed children,
under `From = 1`: no branch is admissible at evaluation. -/
def c7store : Store :=
  [ { kind := .rp, sym := .rep (.tok (litTok 1 "a")) 1 (-1) none,
      parent := some 5, results := [(some 2, [])] } ]

/-- A sequence state with one live branch and its bookkeeping entries, for
exercising `chain.stateType.addPossibility` and friends. -/
def c9dat : StDat :=
  { kind := .ch, sym := .chain [.tok (litTok 1 "a")] none, parent := some 9,
    poss := [2], results := [(some 2, [7])], curPos := [(some 2, 1)] }

/-- The store holding just that sequence state. -/
def c9store : Store := [c9dat]

/-- Observation of a `createNextState` outcome: the live list, the
deferred-add queue and the store size afterwards. -/
def c4obs (r : Except PErr (Store × List Nat)) :
    Option (List Nat × List Nat × Nat) :=
  match r with
  | .ok (st, _) =>
    match st[1]? with
    | some d => some (d.poss, d.added, st.length)
    | none => none
  | .error _ => none

/-- Observation of a repetition-state transition: the root's valid
completions, the repetition state's live list, deferred-add queue,
deferred-remove queue and `results` dictionary, and the store size. -/
def c6obs (r : Except PErr (Store × List Nat)) :
    Option (List Nat × List Nat × List Nat × List Nat
            × List (Option Nat × List Nat) × Nat) :=
  match r with
  | .ok (st, _) =>
    match st[0]?, st[1]? with
    | some d0, some d1 =>
      some (d0.validPoss, d1.poss, d1.added, d1.removed, d1.results, st.length)
    | _, _ => none
  | .error _ => none

/-- The start symbol `repeat(optional(a), from = 0, to = 2)`: a repetition
with `From = 0` over a nullable inner symbol. -/
def c6ceSym : symbol :=
  .rep (.rep (.tok (litTok 1 "a")) 0 1 none) 0 2 none

/-- The start symbol `repeat(a, from = 0, to = 2)`: the same repetition
over a terminal inner symbol. -/
def c6okSym : symbol := .rep (.tok (litTok 1 "a")) 0 2 none

/-- A fresh root state for the given start symbol
(`parserRootState.__init__` before its `addPossibility` call). -/
def rootStateOf (s : symbol) : StDat :=
  { kind := .root, sym := s, parent := none }

/-- Whether, after an engine operation, some valid completion recorded at
the root holds a branch with zero completed children — the observable
footprint of an eagerly forked empty twin that was immediately marked
valid. -/
def hasEmptyValidCompletion (r : Except PErr (Store × List Nat)) : Bool :=
  match r with
  | .ok (st, _) =>
    match st[0]? with
    | some d0 =>
      d0.validPoss.any (fun i =>
        match st[i]? with
        | some d => d.results.any (fun kv => kv.2.isEmpty)
        | none => false)
    | none => false
  | .error _ => false

theorem ebind_ok {α β : Type} (a : α) (f : α → Except PErr β) :
    (Except.ok a >>= f) = f a := rfl

theorem ebind_err {α β : Type} (e : PErr) (f : α → Except PErr β) :
    ((Except.error e : Except PErr α) >>= f) = .error e := rfl

theorem tokenMatch_eq_some (t : Token) (text : String) (pos : Nat)
    (g0 : String) (gd : List (String × String))
    (hre : t.reMatch text pos = some (g0, gd)) :
    tokenMatch t text pos =
      if g0.length = 0 then .error .zeroLengthToken
      else .ok (some { tokTid := t.tid, text := g0,
                       result := if gd.length = 0 then .str g0 else .strMap gd,
                       start := pos, endPos := pos + g0.length }) := by
  unfold tokenMatch
  rw [hre]

theorem tokenMatch_eq_none (t : Token) (text : String) (pos : Nat)
    (hre : t.reMatch text pos = none) : tokenMatch t text pos = .ok none := by
  unfold tokenMatch
  rw [hre]

theorem tokenMatch_error_eq (t : Token) (text : String) (pos : Nat) (e : PErr)
    (h : tokenMatch t text pos = .error e) : e = .zeroLengthToken := by
  rcases hre : t.reMatch text pos with _ | ⟨g0, gd⟩
  · rw [tokenMatch_eq_none t text pos hre] at h
    simp at h
  · rw [tokenMatch_eq_some t text pos g0 gd hre] at h
    by_cases hz : g0.length = 0
    · rw [if_pos hz] at h
      simp only [Except.error.injEq] at h
      exact h.symm
    · rw [if_neg hz] at h
      simp at h

theorem tokenMatch_endPos (t : Token) (text : String) (pos : Nat)
    (mr : MatchRec) (h : tokenMatch t text pos = .ok (some mr)) :
    pos < mr.endPos := by
  rcases hre : t.reMatch text pos with _ | ⟨g0, gd⟩
  · rw [tokenMatch_eq_none t text pos hre] at h
    simp at h
  · rw [tokenMatch_eq_some t text pos g0 gd hre] at h
    by_cases hz : g0.length = 0
    · rw [if_pos hz] at h
      simp at h
    · rw [if_neg hz] at h
      simp only [Except.ok.injEq, Option.some.injEq] at h
      subst h
      show pos < pos + g0.length
      omega

theorem matchFirst_endPos (toks : List Token) (text : String) (pos : Nat)
    (t : Token) (mr : MatchRec)
    (h : matchFirst toks text pos = .ok (some (t, mr))) : pos < mr.endPos := by
  induction toks with
  | nil => simp [matchFirst] at h
  | cons t' rest ih =>
    unfold matchFirst at h
    rcases htm : tokenMatch t' text pos with e | r <;> rw [htm] at h
    · rw [ebind_err] at h
      simp at h
    · rw [ebind_ok] at h
      cases r with
      | none => exact ih h
      | some mr2 =>
        have h' : (Except.ok (some (t', mr2)) :
            Except PErr (Option (Token × MatchRec))) = .ok (some (t, mr)) := h
        simp only [Except.ok.injEq, Option.some.injEq, Prod.mk.injEq] at h'
        exact h'.2 ▸ tokenMatch_endPos t' text pos mr2 htm

theorem matchFirst_error_eq (toks : List Token) (text : String) (pos : Nat)
    (e : PErr) (h : matchFirst toks text pos = .error e) :
    e = .zeroLengthToken := by
  induction toks with
  | nil => simp [matchFirst] at h
  | cons t' rest ih =>
    unfold matchFirst at h
    rcases htm : tokenMatch t' text pos with e' | r <;> rw [htm] at h
    · rw [ebind_err] at h
      simp only [Except.error.injEq] at h
      exact h ▸ tokenMatch_error_eq t' text pos e' htm
    · rw [ebind_ok] at h
      cases r with
      | none => exact ih h
      | some mr2 =>
        have h' : (Except.ok (some (t', mr2)) :
            Except PErr (Option (Token × MatchRec))) = .error e := h
        simp at h'

theorem lexAux_ne_fuelOut (pm : List (Nat × Mode)) (text : String) :
    ∀ (fuel pos : Nat) (states : List Mode) (acc : List MatchRec),
      text.length - pos < fuel →
      lexAux pm text fuel pos states acc ≠ .error .fuelOut := by
  intro fuel
  induction fuel with
  | zero => intro pos states acc h; omega
  | succ f ih =>
    intro pos states acc h
    unfold lexAux
    by_cases hp : pos < text.length
    · rw [if_pos hp]
      match states with
      | [] => simp
      | top :: rest =>
        rcases hm : matchFirst top.omits text pos with e | r <;>
          simp only [hm, ebind_ok, ebind_err]
        · have he := matchFirst_error_eq _ _ _ _ hm
          subst he
          simp
        · cases r with
          | none =>
            rcases hm2 : matchFirst top.tokens text pos with e2 | r2 <;>
              simp only [hm2, ebind_ok, ebind_err]
            · have he := matchFirst_error_eq _ _ _ _ hm2
              subst he
              simp
            · cases r2 with
              | none => simp
              | some tp =>
                obtain ⟨t2, mr2⟩ := tp
                have hlt := matchFirst_endPos _ _ _ _ _ hm2
                exact ih mr2.endPos _ _ (by omega)
          | some tp =>
            obtain ⟨t, mr⟩ := tp
            have hlt := matchFirst_endPos _ _ _ _ _ hm
            exact ih mr.endPos _ acc (by omega)
    · rw [if_neg hp]
      simp

theorem lex_ne_fuelOut (g : Grammar) (text : String) :
    lex g text ≠ .error .fuelOut :=
  lexAux_ne_fuelOut _ text (text.length + 1) 0 _ [] (by omega)

/-- C8: each lexer iteration strictly increases the position, because a
successful `token.match` always ends strictly after `pos` (a zero-length
match raises an error on the first match attempt instead of returning a
match record); hence the lexer loop, run with fuel exceeding the number of
remaining characters, never exhausts it, so lexing terminates on every
finite input, either returning a token stream or raising an error. -/
theorem c8_lexer_terminates :
    (∀ (t : Token) (text : String) (pos : Nat) (mr : MatchRec),
       tokenMatch t text pos = .ok (some mr) → pos < mr.endPos)
    ∧ (∀ (pm : List (Nat × Mode)) (text : String) (fuel pos : Nat)
         (states : List Mode) (acc : List MatchRec),
         text.length - pos < fuel →
         lexAux pm text fuel pos states acc ≠ .error .fuelOut)
    ∧ (∀ (g : Grammar) (text : String), lex g text ≠ .error .fuelOut) :=
  ⟨tokenMatch_endPos, lexAux_ne_fuelOut, lex_ne_fuelOut⟩

/-- C8 (witness): the strict-increase fact and the fuel bound at a
concrete token and text. -/
theorem c8_lexer_terminates_witness :
    (tokenMatch (litTok 1 "a") "x" 0 = .ok (some ⟨1, "a", .str "a", 0, 1⟩))
    ∧ (0 : Nat) < 1
    ∧ ("x".length - 0 < 2)
    ∧ lexAux [] "x" 2 0 [{ tokens := [litTok 1 "a"] }] [] ≠ .error .fuelOut :=
  ⟨rfl, c8_lexer_terminates.1 (litTok 1 "a") "x" 0 ⟨1, "a", .str "a", 0, 1⟩ rfl,
   by decide,
   c8_lexer_terminates.2.1 [] "x" 2 0 [{ tokens := [litTok 1 "a"] }] []
     (by decide)⟩

/-- C10 (counterexample): for the nullable inner symbol `optional(a)`, the
start symbol `repeat(optional(a), from = 0, to = 1)` does not parse the
empty string to the empty list: the eagerly forked empty branches of the
inner and the outer repetition both complete the root before any token,
so `result` raises `Ambigious`. -/
theorem c10_empty_parse_counterexample :
    parse nestedOptGram "" [] = .error (.ambiguous 0) := rfl

/-- C10 (amended): for every grammar whose start symbol is
`repeat(X, from = 0)` with `X` a terminal symbol (and a well-formed bound
`to ∈ {-1} ∪ ℕ`), `parse` applied to the empty string succeeds and returns
the empty list, or the reducer applied to the empty list: the eagerly
forked empty branch completes the root before any token is pushed. -/
theorem c10_empty_parse (tk : Token) (To : Int) (mg : Option Merger)
    (ctx : Ctx) (ls : List Mode) (m0 : Mode) (h : 0 ≤ To ∨ To = -1) :
    parse { lexerStates := ls, lexerStartState := m0,
            startSymbol := .rep (.tok tk) 0 To mg } "" ctx
      = .ok (applyMerger mg (.list []) ctx) := by
  rcases h with h | h
  · obtain ⟨n, rfl⟩ := Int.eq_ofNat_of_zero_le h
    rfl
  · subst h
    rfl

/-- C10 (witness): the amended theorem applied at `to = 1`, no reducer,
empty context. -/
theorem c10_empty_parse_witness :
    ((0 : Int) ≤ 1 ∨ (1 : Int) = -1) ∧
    parse { lexerStates := [{ tokens := [litTok 1 "a"] }],
            lexerStartState := { tokens := [litTok 1 "a"] },
            startSymbol := .rep (.tok (litTok 1 "a")) 0 1 none } "" []
      = .ok (applyMerger none (.list []) []) :=
  ⟨Or.inl (by decide),
   c10_empty_parse (litTok 1 "a") 1 none [] _ _ (Or.inl (by decide))⟩

/-- C2 (counterexample): for the grammar whose only token's regexp matches
the empty string, `parse` raises the `ValueError` from `token.match` — an
outcome outside the six documented ones (the source's own test
`tokenTests.oneChar` asserts this `ValueError`). -/
theorem c2_parse_outcomes_counterexample :
    parse zeroGram "b" [] = .error .zeroLengthToken
    ∧ specifiedOutcome (parse zeroGram "b" []) = false := ⟨rfl, rfl⟩

/-- C2 (amended): every outcome of `parse` is either one of the six
documented ones or an internal Python error (such as the zero-length-token
`ValueError`); errors propagate without being caught: a lexer-stage error
aborts `parse` unchanged, an engine-stage error is re-raised unchanged
except that the recursion-limit error becomes `InfiniteStateExpansion`,
and on success `parse` returns the evaluated root completion. -/
theorem c2_parse_outcomes (g : Grammar) (text : String) (ctx : Ctx) :
    (specifiedOutcome (parse g text ctx) = true
      ∨ internalOutcome (parse g text ctx) = true)
    ∧ (∀ e, lex g text = .error e → parse g text ctx = .error e)
    ∧ (∀ toks, lex g text = .ok toks →
         parseCore engineFuel g toks = .error .fuelOut →
         parse g text ctx = .error .infiniteStateExpansion)
    ∧ (∀ toks e, lex g text = .ok toks →
         parseCore engineFuel g toks = .error e → e ≠ .fuelOut →
         parse g text ctx = .error e)
    ∧ (∀ toks st, lex g text = .ok toks →
         parseCore engineFuel g toks = .ok st →
         parse g text ctx = rootResult engineFuel st ctx) := by
  refine ⟨?_, ?_, ?_, ?_, ?_⟩
  · rcases hr : parse g text ctx with e | v
    · cases e <;> simp [specifiedOutcome, internalOutcome]
    · left; rfl
  · intro e he
    unfold parse
    rw [he]
  · intro toks hl hc
    unfold parse
    simp only [hl, hc]
  · intro toks e hl hc hne
    unfold parse
    simp only [hl, hc]
  · intro toks st hl hc
    unfold parse
    simp only [hl, hc]

/-- C2 (witness): the lexer-error propagation conjunct applied to the
zero-length-token grammar, whose lexing raises the `ValueError`. -/
theorem c2_parse_outcomes_witness :
    lex zeroGram "b" = .error .zeroLengthToken
    ∧ parse zeroGram "b" [] = .error .zeroLengthToken :=
  ⟨rfl, (c2_parse_outcomes zeroGram "b" []).2.1 .zeroLengthToken rfl⟩

/-- C5 (counterexample): the pop is not guarded by stack depth: with the
base mode's own token as its `pop_on`, the first match pops the base mode
at depth 1 (leaving an empty stack), and lexing remaining input then dies
evaluating the undefined attribute `self.lexerState` (`AttributeError`)
instead of continuing in the base mode. -/
theorem c5_mode_pop_counterexample :
    applyModeTransitions (litTok 5 "a") [popMode] [] = []
    ∧ lex popGram "aa" = .error .noLexerState := ⟨rfl, rfl⟩

/-- C5 (amended): when a matched token equals the top mode's `pop_on`, the
mode stack is popped unconditionally — also at depth 1, so the base
(start) mode can be popped, after which remaining input raises an internal
`AttributeError` — and the pop always happens before any push triggered by
the same token. -/
theorem c5_mode_transitions (t : Token) (top : Mode) (rest : List Mode)
    (pm : List (Nat × Mode)) :
    (top.popOn = some t.tid → plookup pm t.tid = none →
       applyModeTransitions t (top :: rest) pm = rest)
    ∧ (∀ md, top.popOn = some t.tid → plookup pm t.tid = some md →
         applyModeTransitions t (top :: rest) pm = md :: rest)
    ∧ (top.popOn ≠ some t.tid → plookup pm t.tid = none →
         applyModeTransitions t (top :: rest) pm = top :: rest)
    ∧ (∀ md, top.popOn ≠ some t.tid → plookup pm t.tid = some md →
         applyModeTransitions t (top :: rest) pm = md :: top :: rest) := by
  refine ⟨?_, ?_, ?_, ?_⟩
  · intro hpop hpush
    simp [applyModeTransitions, hpop, hpush]
  · intro md hpop hpush
    simp [applyModeTransitions, hpop, hpush]
  · intro hpop hpush
    simp [applyModeTransitions, hpop, hpush]
  · intro md hpop hpush
    simp [applyModeTransitions, hpop, hpush]

/-- C5 (witness): the unconditional-pop conjunct applied at depth 1. -/
theorem c5_mode_transitions_witness :
    popMode.popOn = some (litTok 5 "a").tid
    ∧ plookup [] (litTok 5 "a").tid = none
    ∧ applyModeTransitions (litTok 5 "a") [popMode] [] = [] :=
  ⟨rfl, rfl, (c5_mode_transitions (litTok 5 "a") popMode [] []).1 rfl rfl⟩

/-- C3 (counterexample): for a token with a named capture group and no
transform, the value carried by the match record is the group mapping, not
the raw captured substring: the named-groups mapping takes precedence over
the raw substring, contrary to the claim's ordering. -/
theorem c3_match_value_counterexample :
    tokenMatch c3tok "a" 0 = .ok (some ⟨3, "a", .strMap [("x", "a")], 0, 1⟩)
    ∧ Value.strMap [("x", "a")] ≠ Value.str "a" := by
  refine ⟨rfl, ?_⟩
  intro h
  cases h

/-- C3 (amended): the value carried by a successful match record is the
mapping of named capture groups when any exist, else the raw captured
substring; at evaluation, the transform (merger), when defined, is applied
to that value, else the value is returned unchanged. -/
theorem c3_match_value (t : Token) (text : String) (pos : Nat) :
    (∀ g0 gd, t.reMatch text pos = some (g0, gd) → g0.length ≠ 0 →
       tokenMatch t text pos =
         .ok (some { tokTid := t.tid, text := g0,
                     result := if gd.length = 0 then .str g0
                               else .strMap gd,
                     start := pos, endPos := pos + g0.length }))
    ∧ (∀ (fuel : Nat) (st : Store) (id : Nat) (ctx : Ctx) (d : StDat)
         (mr : MatchRec), st[id]? = some d → d.kind = .tk →
         d.tokResult = some mr →
         evalRes (fuel + 1) st id ctx =
           .ok (applyMerger (symMerger d.sym) mr.result ctx))
    ∧ (∀ (f : Merger) (v : Value) (ctx : Ctx),
         applyMerger (some f) v ctx = f v ctx)
    ∧ (∀ (v : Value) (ctx : Ctx), applyMerger none v ctx = v) := by
  refine ⟨?_, ?_, fun _ _ _ => rfl, fun _ _ => rfl⟩
  · intro g0 gd hre hz
    rw [tokenMatch_eq_some t text pos g0 gd hre, if_neg hz]
  · intro fuel st id ctx d mr hd hk hmr
    unfold evalRes
    rw [hd]
    simp only [hk, hmr]

/-- C3 (witness): the amended precedence applied to the named-group token
and to a token state carrying its match. -/
theorem c3_match_value_witness :
    c3tok.reMatch "a" 0 = some ("a", [("x", "a")])
    ∧ ("a".length ≠ 0)
    ∧ tokenMatch c3tok "a" 0 =
        .ok (some { tokTid := 3, text := "a",
                    result := if ([("x", "a")] : List (String × String)).length = 0
                              then .str "a" else .strMap [("x", "a")],
                    start := 0, endPos := 0 + "a".length }) :=
  ⟨rfl, by decide,
   (c3_match_value c3tok "a" 0).1 "a" [("x", "a")] rfl (by decide)⟩

/-- C1: for the root parser state: `pushToken` first clears
`validPossibilities` — its outcome is independent of the incoming set of
valid completions; when the root's `_possibilities` list is empty at a
token push it raises `StatesExhausted` carrying the recorded
last-expected terminal states; and `result` raises `NotCompleted` when
the set of valid completions is empty, `Ambigious` when it has more than
one element, and otherwise evaluates and returns the unique completion. -/
theorem c1_root_state (F : Nat) (st : Store) (d : StDat) (m : MatchRec)
    (ctx : Ctx) (hd : st[0]? = some d) :
    (∀ vp, d.kind = .root →
       exec (F + 1) (.pushTok 0 m) st
         = exec (F + 1) (.pushTok 0 m) (st.set 0 { d with validPoss := vp }))
    ∧ (d.kind = .root → d.poss = [] →
       exec (F + 1) (.pushTok 0 m) st
         = .error (.statesExhausted 0 (some d.lastTokens)))
    ∧ (d.validPoss = [] → rootResult F st ctx = .error (.notCompleted 0))
    ∧ (∀ a b r, d.validPoss = a :: b :: r →
         rootResult F st ctx = .error (.ambiguous 0))
    ∧ (∀ x, d.validPoss = [x] →
         rootResult F st ctx = evalRes F st x ctx) := by
  have hlen : 0 < st.length := by
    cases st with
    | nil => simp at hd
    | cons a l => simp
  refine ⟨?_, ?_, ?_, ?_, ?_⟩
  · intro vp hk
    simp only [exec, withSt, hd, hk, List.getElem?_set_eq_of_lt _ hlen,
      List.set_set]
  · intro hk hposs
    simp only [exec, withSt, hd, hk, hposs, reduceIte]
  · intro hvp
    unfold rootResult
    rw [hd]
    simp [hvp]
  · intro a b r hvp
    unfold rootResult
    rw [hd]
    simp [hvp]
  · intro x hvp
    unfold rootResult
    rw [hd]
    simp [hvp]

/-- C1 (witness): the exhausted-raise and result conjuncts at a concrete
root store with no live alternatives, recorded last leaf 7 and one valid
completion. -/
theorem c1_root_state_witness :
    exec 1 (.pushTok 0 mr0) c1store = .error (.statesExhausted 0 (some [7]))
    ∧ rootResult 0 c1store [] = evalRes 0 c1store 4 [] :=
  ⟨(c1_root_state 0 c1store _ mr0 [] rfl).2.1 rfl rfl,
   (c1_root_state 0 c1store _ mr0 [] rfl).2.2.2.2 4 rfl⟩

theorem alookup_aset_self {α : Type} (m : List (Option Nat × α))
    (k : Option Nat) (v : α) : alookup (aset m k v) k = some v := by
  induction m with
  | nil => simp [aset, alookup]
  | cons kv rest ih =>
    obtain ⟨k', v'⟩ := kv
    by_cases hk : k' = k
    · simp [aset, hk, alookup]
    · simp [aset, hk, alookup, ih]

theorem alookup_aset_ne {α : Type} (m : List (Option Nat × α))
    (k k' : Option Nat) (v : α) (h : k' ≠ k) :
    alookup (aset m k v) k' = alookup m k' := by
  induction m with
  | nil => simp [aset, alookup, Ne.symm h]
  | cons kv rest ih =>
    obtain ⟨k0, v0⟩ := kv
    by_cases hk : k0 = k
    · subst hk
      simp [aset, alookup, Ne.symm h]
    · simp only [aset, if_neg hk, alookup]
      by_cases hk0 : k0 = k'
      · simp [hk0]
      · simp [hk0, ih]

theorem alookup_aremove_self {α : Type} (m : List (Option Nat × α))
    (k : Option Nat) : alookup (aremove m k) k = none := by
  induction m with
  | nil => simp [aremove, alookup]
  | cons kv rest ih =>
    obtain ⟨k0, v0⟩ := kv
    by_cases hk : k0 = k
    · simp [aremove, hk, ih]
    · simp [aremove, hk, alookup, ih]

theorem alookup_aremove_ne {α : Type} (m : List (Option Nat × α))
    (k k' : Option Nat) (h : k' ≠ k) :
    alookup (aremove m k) k' = alookup m k' := by
  induction m with
  | nil => simp [aremove]
  | cons kv rest ih =>
    obtain ⟨k0, v0⟩ := kv
    by_cases hk : k0 = k
    · subst hk
      simp [aremove, alookup, Ne.symm h, ih]
    · simp only [aremove, if_neg hk, alookup]
      by_cases hk0 : k0 = k'
      · simp [hk0]
      · simp [hk0, ih]

/-- C9: for every chain-kind state (sequence, repetition, alternation):
adding an alternative through `addPossibility` or `addPossibilityNow`
creates entries in both `results` and `currentPositions` — copied from the
currently-worked-on branch when one exists and initialized to the empty
list and position 0 otherwise; removing an alternative deletes both
entries; and the invariant that every live, not-pending-removal
alternative has both entries is preserved by these operations. -/
theorem c9_chain_bookkeeping (st : Store) (i p : Nat) (d : StDat)
    (hd : st[i]? = some d) (hck : isChainKind d.kind = true) :
    (d.yielding = false → d.worksOn = none →
       addPossibility st i p =
         .ok (st.set i
           { d with
             poss := d.poss ++ [p],
             results := aset d.results (some p) [],
             curPos := aset d.curPos (some p) 0 }))
    ∧ (d.yielding = true → d.worksOn = none →
       addPossibility st i p =
         .ok (st.set i
           { d with
             added := d.added ++ [p],
             results := aset d.results (some p) [],
             curPos := aset d.curPos (some p) 0 }))
    ∧ (∀ w rs cp, d.yielding = false → d.worksOn = some w →
        alookup d.results (some w) = some rs →
        alookup d.curPos (some w) = some cp →
        addPossibility st i p =
          .ok (st.set i
            { d with
              poss := d.poss ++ [p],
              results := aset d.results (some p) rs,
              curPos := aset d.curPos (some p) cp }))
    ∧ (d.worksOn = none →
       addPossibilityNow st i p =
         .ok (st.set i
           { d with
             poss := d.poss ++ [p],
             results := aset d.results (some p) [],
             curPos := aset d.curPos (some p) 0 }))
    ∧ (d.yielding = false → p ∈ d.poss →
       removePossibility st i p =
         .ok (st.set i
           { d with
             poss := d.poss.erase p,
             results := aremove d.results (some p),
             curPos := aremove d.curPos (some p) }))
    ∧ (d.yielding = true → p ∈ d.poss →
       removePossibility st i p =
         .ok (st.set i
           { d with
             removed := d.removed ++ [p],
             results := aremove d.results (some p),
             curPos := aremove d.curPos (some p) }))
    ∧ (∀ (m : List (Option Nat × List Nat)) (k : Option Nat),
         alookup (aremove m k) k = none)
    ∧ (chainInv d →
       chainInv
         { d with
           poss := d.poss ++ [p],
           results := aset d.results (some p) [],
           curPos := aset d.curPos (some p) 0 })
    ∧ (chainInv d →
       chainInv
         { d with
           removed := d.removed ++ [p],
           results := aremove d.results (some p),
           curPos := aremove d.curPos (some p) }) := by
  have hlen : i < st.length := by
    by_contra hc
    rw [List.getElem?_eq_none (by omega)] at hd
    simp at hd
  refine ⟨?_, ?_, ?_, ?_, ?_, ?_, fun m k => alookup_aremove_self m k, ?_, ?_⟩
  · intro hy hw
    simp only [addPossibility, addPossGeneric, copyResAndCurPosFor, withSt,
      hd, hck, hy, hw, List.getElem?_set_eq_of_lt _ hlen, List.set_set,
      ebind_ok, if_true, Bool.false_eq_true, if_false, reduceIte]
  · intro hy hw
    simp only [addPossibility, addPossGeneric, copyResAndCurPosFor, withSt,
      hd, hck, hy, hw, List.getElem?_set_eq_of_lt _ hlen, List.set_set,
      ebind_ok, if_true, reduceIte]
  · intro w rs cp hy hw hrs hcp
    simp only [addPossibility, addPossGeneric, copyResAndCurPosFor, withSt,
      hd, hck, hy, hw, hrs, hcp, List.getElem?_set_eq_of_lt _ hlen,
      List.set_set, ebind_ok, if_true, Bool.false_eq_true, if_false,
      reduceIte]
  · intro hw
    simp only [addPossibilityNow, addPossNowGeneric, copyResAndCurPosFor,
      withSt, hd, hck, hw, List.getElem?_set_eq_of_lt _ hlen, List.set_set,
      ebind_ok, if_true, reduceIte]
  · intro hy hp
    simp only [removePossibility, removePossGeneric, withSt, hd, hck, hy,
      List.getElem?_set_eq_of_lt _ hlen, List.set_set, ebind_ok, if_true,
      Bool.false_eq_true, if_false, reduceIte, if_pos (Or.inl hp)]
  · intro hy hp
    simp only [removePossibility, removePossGeneric, withSt, hd, hck, hy,
      List.getElem?_set_eq_of_lt _ hlen, List.set_set, ebind_ok, if_true,
      reduceIte, if_pos (Or.inl hp)]
  · intro hinv q hq hqr
    simp only [List.mem_append] at hq
    by_cases hqp : q = p
    · subst hqp
      constructor <;> simp [alookup_aset_self]
    · have hq' : q ∈ d.poss ++ d.added := by
        rcases hq with (hq | hq) | hq
        · exact List.mem_append.mpr (Or.inl hq)
        · simp at hq
          exact absurd hq hqp
        · exact List.mem_append.mpr (Or.inr hq)
      have := hinv q hq' hqr
      constructor
      · rw [alookup_aset_ne _ _ _ _ (by simp [hqp])]
        exact this.1
      · rw [alookup_aset_ne _ _ _ _ (by simp [hqp])]
        exact this.2
  · intro hinv q hq hqr
    simp only [List.mem_append] at hqr
    push_neg at hqr
    have hq2 := hqr
    have hqp : q ≠ p := by
      intro hc
      subst hc
      exact hqr.2 (by simp)
    have := hinv q hq (by
      intro hc
      exact hqr.1 hc)
    constructor
    · rw [alookup_aremove_ne _ _ _ (by simp [hqp])]
      exact this.1
    · rw [alookup_aremove_ne _ _ _ (by simp [hqp])]
      exact this.2

/-- C9 (witness): adding a fresh alternative 3 to a concrete sequence
state creates both bookkeeping entries. -/
theorem c9_chain_bookkeeping_witness :
    addPossibility c9store 0 3 =
      .ok (c9store.set 0
        { c9dat with
          poss := [2, 3],
          results := aset c9dat.results (some 3) [],
          curPos := aset c9dat.curPos (some 3) 0 }) :=
  (c9_chain_bookkeeping c9store 0 3 c9dat rfl rfl).1 rfl rfl

theorem pickLongest_spec (l : List (List Nat)) (first : List Nat) :
    first.length ≤ (pickLongest first l).length
    ∧ (∀ x ∈ l, x.length ≤ (pickLongest first l).length)
    ∧ ((first :: l).find? (fun x => x.length == (pickLongest first l).length)
        = some (pickLongest first l)) := by
  induction l generalizing first with
  | nil =>
    refine ⟨le_refl _, by simp, ?_⟩
    simp [pickLongest, List.find?]
  | cons y ys ih =>
    have hfold : pickLongest first (y :: ys)
        = pickLongest (if first.length < y.length then y else first) ys := rfl
    by_cases hfy : first.length < y.length
    · rw [hfold, if_pos hfy]
      obtain ⟨ih1, ih2, ih3⟩ := ih y
      refine ⟨by omega, ?_, ?_⟩
      · intro x hx
        rcases List.mem_cons.mp hx with rfl | hx
        · exact ih1
        · exact ih2 x hx
      · rw [List.find?_cons_of_neg, ih3]
        simp only [beq_iff_eq]
        omega
    · rw [hfold, if_neg hfy]
      obtain ⟨ih1, ih2, ih3⟩ := ih first
      refine ⟨ih1, ?_, ?_⟩
      · intro x hx
        rcases List.mem_cons.mp hx with rfl | hx
        · omega
        · exact ih2 x hx
      · rcases hp : (first.length == (pickLongest first ys).length) with _ | _
        · rw [List.find?_cons_of_neg _ (by simp [hp])] at ih3
          rw [List.find?_cons_of_neg _ (by simp [hp])]
          rw [List.find?_cons_of_neg, ih3]
          simp only [beq_iff_eq, beq_eq_false_iff_ne, ne_eq] at hp ⊢
          omega
        · rw [List.find?_cons_of_pos _ (by simp [hp])] at ih3
          rw [List.find?_cons_of_pos _ (by simp [hp])]
          exact ih3

theorem admissibleResults_cons (f t : Int) (y : List Nat)
    (ys : List (List Nat)) :
    admissibleResults f t (y :: ys)
      = if f ≤ (y.length : Int) ∧ ((y.length : Int) ≤ t ∨ t = -1)
        then y :: admissibleResults f t ys
        else admissibleResults f t ys := rfl

theorem admissible_mem (f t : Int) :
    ∀ (rs : List (List Nat)) (r : List Nat),
      r ∈ admissibleResults f t rs ↔
        (r ∈ rs ∧ f ≤ (r.length : Int) ∧ ((r.length : Int) ≤ t ∨ t = -1)) := by
  intro rs
  induction rs with
  | nil => simp [admissibleResults]
  | cons y ys ih =>
    intro r
    by_cases hc : f ≤ (y.length : Int) ∧ ((y.length : Int) ≤ t ∨ t = -1)
    · rw [admissibleResults_cons, if_pos hc]
      constructor
      · intro hr
        rcases List.mem_cons.mp hr with rfl | hr
        · exact ⟨List.mem_cons_self _ _, hc.1, hc.2⟩
        · have h2 := (ih r).mp hr
          exact ⟨List.mem_cons_of_mem _ h2.1, h2.2⟩
      · rintro ⟨hm, h1, h2⟩
        rcases List.mem_cons.mp hm with rfl | hm
        · exact List.mem_cons_self _ _
        · exact List.mem_cons_of_mem _ ((ih r).mpr ⟨hm, h1, h2⟩)
    · rw [admissibleResults_cons, if_neg hc]
      constructor
      · intro hr
        have h2 := (ih r).mp hr
        exact ⟨List.mem_cons_of_mem _ h2.1, h2.2⟩
      · rintro ⟨hm, h1, h2⟩
        rcases List.mem_cons.mp hm with rfl | hm
        · exact absurd ⟨h1, h2⟩ hc
        · exact (ih r).mpr ⟨hm, h1, h2⟩

/-- C7: a repetition state's evaluation filters the branches to those
whose completed-child count `k` satisfies `from ≤ k` and
(`k ≤ to` or `to = -1`); among them it selects the one with the most
completed children, ties broken by insertion order — the selected branch
is a longest admissible one and the first branch of that length in the
(insertion-ordered) branch list; evaluation returns the selected branch's
child results merged by the reducer when one is defined, and raises
`NotCompleted` when no admissible branch exists. -/
theorem c7_repeat_result (fuel : Nat) (st : Store) (id : Nat) (ctx : Ctx)
    (d : StDat) :
    (∀ (f t : Int) (rs : List (List Nat)) (r : List Nat),
       r ∈ admissibleResults f t rs ↔
         (r ∈ rs ∧ f ≤ (r.length : Int) ∧ ((r.length : Int) ≤ t ∨ t = -1)))
    ∧ (∀ (r0 : List Nat) (rest : List (List Nat)),
         pickLongest r0 (r0 :: rest) ∈ r0 :: rest
         ∧ (∀ x ∈ r0 :: rest,
              x.length ≤ (pickLongest r0 (r0 :: rest)).length)
         ∧ (r0 :: rest).find?
             (fun x => x.length == (pickLongest r0 (r0 :: rest)).length)
             = some (pickLongest r0 (r0 :: rest)))
    ∧ (st[id]? = some d → d.kind = .rp →
       admissibleResults (repFrom d.sym) (repTo d.sym) (avalues d.results)
         = [] →
       evalRes (fuel + 1) st id ctx = .error (.notCompleted id))
    ∧ (∀ (r0 : List Nat) (rest : List (List Nat)),
       st[id]? = some d → d.kind = .rp →
       admissibleResults (repFrom d.sym) (repTo d.sym) (avalues d.results)
         = r0 :: rest →
       evalRes (fuel + 1) st id ctx =
         (pickLongest r0 (r0 :: rest)).mapM (fun i => evalRes fuel st i ctx)
           >>= fun l => .ok (applyMerger (symMerger d.sym) (.list l) ctx)) := by
  refine ⟨admissible_mem, ?_, ?_, ?_⟩
  · intro r0 rest
    obtain ⟨h1, h2, h3⟩ := pickLongest_spec (r0 :: rest) r0
    refine ⟨?_, h2, ?_⟩
    · have hm := List.mem_of_find?_eq_some h3
      rcases List.mem_cons.mp hm with h | h
      · rw [h]
        exact List.mem_cons_self _ _
      · exact h
    · rcases hp : (r0.length == (pickLongest r0 (r0 :: rest)).length)
        with _ | _
      · rw [List.find?_cons_of_neg _ (by simp [hp])] at h3
        exact h3
      · rw [List.find?_cons_of_pos _ (by simp [hp])] at h3
        injection h3 with hc
        rw [List.find?_cons_of_pos _ (by simp [hp])]
        exact congrArg some hc
  · intro hd hk hadm
    conv_lhs => unfold evalRes
    rw [hd]
    simp only [hk, hadm]
  · intro r0 rest hd hk hadm
    conv_lhs => unfold evalRes
    rw [hd]
    simp only [hk, hadm]

/-- C7 (witness): the no-admissible-branch conjunct at a concrete
repetition state with one empty branch under `from = 1`. -/
theorem c7_repeat_result_witness :
    evalRes 1 c7store 0 [] = .error (.notCompleted 0) :=
  (c7_repeat_result 0 c7store 0 [] _).2.2.1 rfl rfl rfl

/-- C4 (counterexample): when the just-validated child *equals* the
currently-iterated alternative (the common case: a child completing on the
token just pushed to it), the spawned next child goes into the deferred
`_addedPossibilities` queue (next token), not into the live list — the
opposite of the claim's assignment of the same-token queue to this case. -/
theorem c4_queue_choice_counterexample :
    (c4obs (exec 2 (.createNext 1 2) (c4store [2] (some 2))) =
       some ([2], [3], 4))
    ∧ ([2] : List Nat) ≠ [2, 3] := by
  constructor
  · rfl
  · simp

/-- C4 (amended): when a sequence state spawns the next child after child
`validState` became valid: if `validState` is absent from the live list,
or no alternative is currently being iterated, or `validState` precedes or
equals the currently-iterated alternative in the live list, the new child
is enqueued through `addPossibility` (the deferred `pending_add` queue
while iterating, so it first receives the next token); only when
`validState` comes strictly after the currently-iterated alternative is it
enqueued through `addPossibilityNow` (appended to the live list, so it
receives the current token); looking up the index of a currently-iterated
alternative that has left the live list raises a `ValueError`. -/
theorem c4_queue_choice (F : Nat) (ps : List Nat) (w : Option Nat) :
    (2 ∉ ps →
       c4obs (exec (F + 2) (.createNext 1 2) (c4store ps w))
         = some (ps, [3], 4))
    ∧ (2 ∈ ps → w = none →
       c4obs (exec (F + 2) (.createNext 1 2) (c4store ps w))
         = some (ps, [3], 4))
    ∧ (∀ cw iv ic, 2 ∈ ps → w = some cw →
       ps.findIdx? (· = 2) = some iv → ps.findIdx? (· = cw) = some ic →
       iv ≤ ic →
       c4obs (exec (F + 2) (.createNext 1 2) (c4store ps w))
         = some (ps, [3], 4))
    ∧ (∀ cw iv ic, 2 ∈ ps → w = some cw →
       ps.findIdx? (· = 2) = some iv → ps.findIdx? (· = cw) = some ic →
       ic < iv →
       c4obs (exec (F + 2) (.createNext 1 2) (c4store ps w))
         = some (ps ++ [3], [], 4))
    ∧ (∀ cw, 2 ∈ ps → w = some cw → ps.findIdx? (· = cw) = none →
       exec (F + 2) (.createNext 1 2) (c4store ps w)
         = .error (.internal "ValueError index")) := by
  refine ⟨?_, ?_, ?_, ?_, ?_⟩
  · intro h2
    simp [exec, withSt, c4store, alookup, aset, symSubs, addPossibility,
      addPossGeneric, copyResAndCurPosFor, isChainKind, ebind_ok, h2, c4obs]
  · intro h2 hw
    subst hw
    simp [exec, withSt, c4store, alookup, aset, symSubs, addPossibility,
      addPossGeneric, copyResAndCurPosFor, isChainKind, ebind_ok, h2, c4obs]
  · intro cw iv ic h2 hw hiv hic hle
    subst hw
    simp [exec, withSt, c4store, alookup, aset, symSubs, addPossibility,
      addPossGeneric, copyResAndCurPosFor, isChainKind, ebind_ok, h2, hiv,
      hic, hle, c4obs]
  · intro cw iv ic h2 hw hiv hic hlt
    subst hw
    simp [exec, withSt, c4store, alookup, aset, symSubs, addPossibilityNow,
      addPossNowGeneric, copyResAndCurPosFor, isChainKind, ebind_ok, h2,
      hiv, hic, Nat.not_le.mpr hlt, c4obs]
  · intro cw h2 hw hic
    subst hw
    simp [exec, withSt, c4store, alookup, aset, symSubs, isChainKind,
      ebind_ok, ebind_err, h2, hic, c4obs]

/-- C4 (witness): the absent-from-live-list case at a concrete store. -/
theorem c4_queue_choice_witness :
    (2 ∉ ([5] : List Nat))
    ∧ c4obs (exec 2 (.createNext 1 2) (c4store [5] none))
        = some ([5], [3], 4) :=
  ⟨by decide, (c4_queue_choice 0 [5] none).1 (by decide)⟩

set_option maxHeartbeats 2000000 in
set_option synthInstance.maxHeartbeats 200000 in
/-- C6 (amended): for a repetition state: at construction, when `From = 0`
*and* the freshly initialized `results` holds exactly one branch with zero
completed children (the guard of `_addEmptyResultToParentEventually`,
satisfied when constructing the inner symbol's state did not validate into
the repetition — e.g. for terminal inner symbols, but not for nullable
ones), an empty twin branch with zero completed children is forked into
the parent and immediately marked valid (and nothing happens when
`From ≠ 0`); and when an inner child becomes valid, the result is appended
to its branch, a new inner child is spawned iff the branch's count is
below `To` or `To = -1`, the branch is forked and the fork marked valid
iff the count is at least `From`, and the branch is removed without
forking iff the count is still below `From`. -/
theorem c6_repeat_transitions (F : Nat) (tk : Token) (f t : Int)
    (mg : Option Merger) (prior : List Nat) :
    (f = 0 →
       c6obs (exec (F + 3) (.addEmpty 1) (c6storeE tk f t mg))
         = some ([3], [2], [], [], [(some 2, [])], 4))
    ∧ (f ≠ 0 →
       c6obs (exec (F + 3) (.addEmpty 1) (c6storeE tk f t mg))
         = some ([], [2], [], [], [(some 2, [])], 3))
    ∧ ((((prior.length + 1 : Nat) : Int) < t ∨ t = -1) →
       ((prior.length + 1 : Nat) : Int) ≥ f →
       c6obs (exec (F + 3) (.setValid 1 2) (c6store tk f t mg prior))
         = some ([4], [2], [3], [2], [(some 3, prior ++ [2])], 5))
    ∧ ((((prior.length + 1 : Nat) : Int) < t ∨ t = -1) →
       ¬ ((prior.length + 1 : Nat) : Int) ≥ f →
       c6obs (exec (F + 3) (.setValid 1 2) (c6store tk f t mg prior))
         = some ([], [2], [3], [2], [(some 3, prior ++ [2])], 4))
    ∧ (¬ (((prior.length + 1 : Nat) : Int) < t ∨ t = -1) →
       ((prior.length + 1 : Nat) : Int) ≥ f →
       c6obs (exec (F + 3) (.setValid 1 2) (c6store tk f t mg prior))
         = some ([3], [2], [], [2], [], 4))
    ∧ (¬ (((prior.length + 1 : Nat) : Int) < t ∨ t = -1) →
       ¬ ((prior.length + 1 : Nat) : Int) ≥ f →
       c6obs (exec (F + 3) (.setValid 1 2) (c6store tk f t mg prior))
         = some ([], [2], [], [2], [], 3)) := by
  refine ⟨?_, ?_, ?_, ?_, ?_, ?_⟩
  · intro hf0
    simp [exec, withSt, c6storeE, alookup, aset, aremove, symSubs, repFrom,
      repTo, addPossibility, addPossGeneric, copyResAndCurPosFor,
      removePossibility, removePossGeneric, isChainKind, fork, ebind_ok,
      ebind_err, hf0, c6obs]
  · intro hf0
    simp [exec, withSt, c6storeE, alookup, aset, aremove, symSubs, repFrom,
      repTo, addPossibility, addPossGeneric, copyResAndCurPosFor,
      removePossibility, removePossGeneric, isChainKind, fork, ebind_ok,
      ebind_err, hf0, c6obs]
  · intro hs hf
    push_cast at hs hf
    simp [exec, withSt, c6store, alookup, aset, aremove, symSubs, repFrom,
      repTo, addPossibility, addPossGeneric, addPossibilityNow,
      addPossNowGeneric, copyResAndCurPosFor, removePossibility,
      removePossGeneric, isChainKind, fork, ebind_ok, ebind_err, hs, hf,
      c6obs]
  · intro hs hf
    push_cast at hs hf
    simp [exec, withSt, c6store, alookup, aset, aremove, symSubs, repFrom,
      repTo, addPossibility, addPossGeneric, addPossibilityNow,
      addPossNowGeneric, copyResAndCurPosFor, removePossibility,
      removePossGeneric, isChainKind, fork, ebind_ok, ebind_err, hs, hf,
      c6obs]
  · intro hs hf
    push_cast at hs hf
    simp [exec, withSt, c6store, alookup, aset, aremove, symSubs, repFrom,
      repTo, addPossibility, addPossGeneric, addPossibilityNow,
      addPossNowGeneric, copyResAndCurPosFor, removePossibility,
      removePossGeneric, isChainKind, fork, ebind_ok, ebind_err, hs, hf,
      c6obs]
  · intro hs hf
    push_cast at hs hf
    simp [exec, withSt, c6store, alookup, aset, aremove, symSubs, repFrom,
      repTo, addPossibility, addPossGeneric, addPossibilityNow,
      addPossNowGeneric, copyResAndCurPosFor, removePossibility,
      removePossGeneric, isChainKind, fork, ebind_ok, ebind_err, hs, hf,
      c6obs]

/-- C6 (witness): the eager empty fork at `From = 0` and the
spawn-and-fork case at count 1 with `From = 0`, `To = -1`. -/
theorem c6_repeat_transitions_witness :
    ((0 : Int) = 0)
    ∧ c6obs (exec 3 (.addEmpty 1) (c6storeE (litTok 1 "a") 0 (-1) none))
        = some ([3], [2], [], [], [(some 2, [])], 4)
    ∧ c6obs (exec 3 (.setValid 1 2) (c6store (litTok 1 "a") 0 (-1) none []))
        = some ([4], [2], [3], [2], [(some 3, [2])], 5) :=
  ⟨rfl,
   (c6_repeat_transitions 0 (litTok 1 "a") 0 (-1) none []).1 rfl,
   (c6_repeat_transitions 0 (litTok 1 "a") 0 (-1) none []).2.2.1
     (Or.inr rfl) (by decide)⟩

/-- C6 (counterexample): the eager empty fork does not happen for every
repetition with `from = 0`: it is guarded by the freshly initialized
`results` holding a single branch with zero completed children, and for
the nullable inner symbol `optional(a)` that guard fails — constructing
`repeat(optional(a), from = 0, to = 2)` lets the inner optional's own
eager twins validate into the outer repetition, churning its `results` to
the two entries `[(5, [4]), (2, [])]`, so no empty twin with zero
completed children is forked into the parent at construction although
`From = 0`: the root's valid completions (states 8 and 9) hold two and one
completed children.  With the terminal inner symbol (`repeat(a, 0, 2)`)
the empty twin is forked and marked valid as the claim describes. -/
theorem c6_repeat_transitions_counterexample :
    repFrom c6ceSym = 0
    ∧ c6obs (exec 50 (.build 0 c6ceSym) [rootStateOf c6ceSym])
        = some ([8, 9], [5, 2], [], [],
                [(some 5, [4]), (some 2, [])], 10)
    ∧ hasEmptyValidCompletion (exec 50 (.build 0 c6ceSym) [rootStateOf c6ceSym])
        = false
    ∧ hasEmptyValidCompletion (exec 50 (.build 0 c6okSym) [rootStateOf c6okSym])
        = true := ⟨rfl, rfl, rfl, rfl⟩
